import Mathlib

/-!
Verification development for the story-store module
(`src/lib/client-api/src/story_store.ts`).

The embedding models JavaScript parameter objects as `PValue` trees,
JavaScript objects (`Record<string, _>`) as insertion-ordered association
lists, and the mutable `StoryStore` class as a `StoreState` record with
explicit state-passing operations.  Channel emissions are modelled as an
append-only event log inside the state, and the per-story lifecycle
resource (`hooks.clean()`) as an append-only log of cleaned story ids.
-/

set_option maxHeartbeats 1000000
set_option maxRecDepth 4000

mutual

/-- Model of a JavaScript value stored inside `parameters` or `args`:
booleans, numbers, strings, arrays, plain objects (insertion-ordered field
lists), and opaque function values identified by a tag (a function value
itself is never inspected by the store, only skipped on extraction or
resolved to a comparator through an environment).  `PFields` and `PArr`
are inlined list types, mutual rather than nested so that the deep merge
below is plain structural recursion. -/
inductive PValue where
  | bool : Bool → PValue
  | num : Int → PValue
  | str : String → PValue
  | func : Nat → PValue
  | arr : PArr → PValue
  | obj : PFields → PValue

inductive PFields where
  | nil : PFields
  | cons : String → PValue → PFields → PFields

inductive PArr where
  | nil : PArr
  | cons : PValue → PArr → PArr

end

/-- Builds an ordered field list from a Lean list literal. -/
def PFields.ofList : List (String × PValue) → PFields
  | [] => .nil
  | (k, v) :: rest => .cons k v (PFields.ofList rest)

/-- Converts an ordered field list back to a Lean list. -/
def PFields.toList : PFields → List (String × PValue)
  | .nil => []
  | .cons k v rest => (k, v) :: rest.toList

/-- Field names of an object, in insertion order. -/
def PFields.keys : PFields → List String
  | .nil => []
  | .cons k _ rest => k :: rest.keys

/-- Appends two field lists. -/
def PFields.append : PFields → PFields → PFields
  | .nil, b => b
  | .cons k v rest, b => .cons k v (rest.append b)

/-- Field lookup in a JavaScript object: `o[k]`, `none` for `undefined`. -/
def PFields.lookup (k : String) : PFields → Option PValue
  | .nil => none
  | .cons k' v rest => if k' = k then some v else rest.lookup k

/-- JavaScript truthiness of a value. -/
def truthy : PValue → Bool
  | .bool b => b
  | .num n => n ≠ 0
  | .str s => s ≠ ""
  | .func _ => true
  | .arr _ => true
  | .obj _ => true

/-- Truthiness of an optional value, `undefined` being falsy. -/
def truthyOpt : Option PValue → Bool
  | some v => truthy v
  | none => false

/-- Fields of the second object whose key does not occur in the first:
the fields a deep or shallow merge appends after the overridden fields of
the first object, in the order of the second object. -/
def newFields (a : PFields) : PFields → PFields
  | .nil => .nil
  | .cons k v rest =>
      match a.lookup k with
      | some _ => newFields a rest
      | none => .cons k v (newFields a rest)

mutual

/-- Modelled from the spec: the Parameter Merger underlying
`combineParameters` (`src/lib/client-api/src/parameters.ts`, which is not
part of the provided sources).  Per the spec (section 4.1): recursive deep
merge where the later value overrides the earlier one, two nested mappings
merge recursively, and any non-mapping value (including an array) on
either side is replaced entirely by the later value — arrays are never
merged element-wise.  Field order follows JavaScript object semantics:
fields of the earlier object keep their position, new fields of the later
object are appended in its order. -/
def mergeValue : PValue → PValue → PValue
  | .obj a, .obj b => .obj ((mergeOver a b).append (newFields a b))
  | _, v => v

/-- Fields of the first object, in position, each deep-merged with the
same-named field of the second object when one exists. -/
def mergeOver : PFields → PFields → PFields
  | .nil, _ => .nil
  | .cons k v rest, b =>
      match b.lookup k with
      | some w => .cons k (mergeValue v w) (mergeOver rest b)
      | none => .cons k v (mergeOver rest b)

end

/-- Deep merge at the level of object field lists. -/
def mergeFields (a b : PFields) : PFields :=
  (mergeOver a b).append (newFields a b)

/-- Modelled from the spec: the variadic `combineParameters(...sets)`
entry point of the Parameter Merger, folding the deep merge over the
argument list starting from the empty mapping (it must tolerate missing
inputs by treating them as empty mappings; callers in the store always
pass present mappings). -/
def combineParameters (ps : List PFields) : PFields :=
  ps.foldl mergeFields .nil

/-- Shallow merge of two JavaScript objects by spread:
`\x7b ...a, ...b \x7d`.  Fields of `a` keep their position (overridden by
`b` where present), new fields of `b` are appended in order. -/
def shallowMerge (a b : PFields) : PFields :=
  (shallowOver a b).append (newFields a b)
where
  /-- Fields of `a` in position, overridden by `b` where present. -/
  shallowOver : PFields → PFields → PFields
    | .nil, _ => .nil
    | .cons k v rest, b =>
        match b.lookup k with
        | some w => .cons k w (shallowOver rest b)
        | none => .cons k v (shallowOver rest b)

deriving instance DecidableEq for PValue, PFields, PArr

/-- Selection record: the currently focused story and view mode. -/
structure Selection where
  storyId : String
  viewMode : String
deriving DecidableEq

/-- Registered story record (`StoreItem`).  The model keeps exactly the
non-function fields of the source record; the function-valued fields
(`getDecorated`, `getOriginal`, `storyFn`) and the `hooks` lifecycle
object cannot live in a shallow embedding — the lifecycle resource is
tracked instead through the `cleanedHooks` log in the store state.  The
`story` field is the legacy duplicate of `name`. -/
structure StoreItem where
  id : String
  kind : String
  name : String
  story : String
  parameters : PFields
  args : PFields
deriving DecidableEq

/-- Published story record: a store item joined with the current global
args, as returned by `fromId` and `raw`. -/
structure PublishedStoreItem extends StoreItem where
  globalArgs : PFields
deriving DecidableEq

/-- Per-kind metadata (`KindMetadata`): first-seen order, accumulated
parameters and decorator list.  Decorators are opaque function values,
modelled by tags. -/
structure KindMetadata where
  order : Nat
  parameters : PFields
  decorators : List Nat
deriving DecidableEq

/-- Options accepted by `raw` and `extract` (`StoryOptions`); the absent
field defaults to false, matching JavaScript undefined being falsy. -/
structure StoryOptions where
  includeDocsOnly : Bool := false
deriving DecidableEq

/-- Context handed to a parameter enhancer during `addStory`: the story
identification spread together with the accumulated parameters and empty
args. -/
structure EnhancerContext where
  id : String
  kind : String
  name : String
  story : String
  parameters : PFields
  args : PFields

/-- A parameter enhancer: a pure function from the enhancer context to a
partial parameter mapping. -/
abbrev ParameterEnhancer := EnhancerContext → PFields

/-- Channel events emitted by the store, with their payloads. -/
inductive StoreEvent where
  | renderCurrentStory
  | currentStoryWasSet (selection : Selection)
  | setStories (stories : List (String × StoreItem))
  | globalArgsChanged (globalArgs : PFields)
  | storyArgsChanged (id : String) (args : PFields)
deriving DecidableEq

/-- Lookup in a string-keyed JavaScript `Record`, modelled as an
insertion-ordered association list. -/
def recordLookup {α : Type} (k : String) : List (String × α) → Option α
  | [] => none
  | (k', v) :: rest => if k' = k then some v else recordLookup k rest

/-- Assignment `m[k] = v` on a `Record`: an existing key keeps its
position and gets the new value, a new key is appended (keys of a
JavaScript `Record` are unique, so updating the first occurrence is
updating the only one). -/
def recordSet {α : Type} (k : String) (v : α) : List (String × α) →
    List (String × α)
  | [] => [(k, v)]
  | (k1, w) :: rest =>
      if k1 = k then (k, v) :: rest else (k1, w) :: recordSet k v rest

/-- In-place update of the value under an existing key (no change when the
key is absent). -/
def recordUpdate {α : Type} (k : String) (f : α → α) : List (String × α) →
    List (String × α)
  | [] => []
  | (k1, w) :: rest =>
      if k1 = k then (k1, f w) :: rest else (k1, w) :: recordUpdate k f rest

/-- Mutable state of a `StoryStore` instance.  `events` is the log of
channel emissions and `cleanedHooks` the log of `hooks.clean()` calls, in
order.  `channelPresent` models whether the channel is non-null (it can be
null in StoryShots); emissions the source guards with `if (this._channel)`
are guarded on this flag. -/
structure StoreState where
  configuring : Bool
  channelPresent : Bool
  globalArgs : PFields
  globalParameters : PFields
  globalDecorators : List Nat
  kinds : List (String × KindMetadata)
  stories : List (String × StoreItem)
  parameterEnhancers : List ParameterEnhancer
  revision : Nat
  selection : Option Selection
  events : List StoreEvent
  cleanedHooks : List String

namespace StoryStore

/-- Constructor state: configuring until told otherwise, everything else
empty. -/
def initialStore (channelPresent : Bool) : StoreState where
  configuring := true
  channelPresent := channelPresent
  globalArgs := .nil
  globalParameters := .nil
  globalDecorators := []
  kinds := []
  stories := []
  parameterEnhancers := []
  revision := 0
  selection := none
  events := []
  cleanedHooks := []

/-- Appends one emission to the event log (`this._channel.emit(...)`). -/
def emitEvent (e : StoreEvent) (st : StoreState) : StoreState :=
  { st with events := st.events ++ [e] }

/-- The method `startConfiguring`. -/
def startConfiguring (st : StoreState) : StoreState :=
  { st with configuring := true }

/-- The method `addGlobalMetadata`: deep-merges the parameters into the
global parameters and appends the decorators.  The source performs no
configuring-phase check here. -/
def addGlobalMetadata (parameters : PFields) (decorators : List Nat)
    (st : StoreState) : StoreState :=
  { st with
    globalParameters := combineParameters [st.globalParameters, parameters]
    globalDecorators := st.globalDecorators ++ decorators }

/-- The method `clearGlobalDecorators`. -/
def clearGlobalDecorators (st : StoreState) : StoreState :=
  { st with globalDecorators := [] }

/-- The method `ensureKind`: on first reference creates the kind record
with `order` equal to the current number of known kinds. -/
def ensureKind (kind : String) (st : StoreState) : StoreState :=
  match recordLookup kind st.kinds with
  | some _ => st
  | none =>
      { st with
        kinds := st.kinds ++
          [(kind, { order := st.kinds.length, parameters := .nil, decorators := [] })] }

/-- The method `addKindMetadata`: ensures the kind, deep-merges the
parameters into the kind parameters and appends the decorators.  The
source performs no configuring-phase check here. -/
def addKindMetadata (kind : String) (parameters : PFields)
    (decorators : List Nat) (st : StoreState) : StoreState :=
  let st := ensureKind kind st
  { st with
    kinds := recordUpdate kind
      (fun m =>
        { m with
          parameters := combineParameters [m.parameters, parameters]
          decorators := m.decorators ++ decorators })
      st.kinds }

/-- The method `addParameterEnhancer`: rejected while the story map is
non-empty, otherwise appended. -/
def addParameterEnhancer (e : ParameterEnhancer) (st : StoreState) :
    Except String StoreState :=
  if st.stories.length > 0 then
    .error ("Cannot add a parameter enhancer to the store after a story has been added.")
  else .ok { st with parameterEnhancers := st.parameterEnhancers ++ [e] }

end StoryStore

namespace StoryStore

/-- The helper `isStoryDocsOnly`: truthiness of `parameters.docsOnly`
(every registered record carries a parameters object, so the
`parameters &&` guard of the source is always passed in the model). -/
def isStoryDocsOnly (parameters : PFields) : Bool :=
  truthyOpt (parameters.lookup "docsOnly")

/-- The helper `includeStory`: with `includeDocsOnly` truthy every story
is included, otherwise only stories that are not docs-only.  The absent
options argument defaults to `includeDocsOnly: false`. -/
def includeStory (story : StoreItem) (options : Option StoryOptions) : Bool :=
  let o := options.getD { includeDocsOnly := false }
  if o.includeDocsOnly then true else !(isStoryDocsOnly story.parameters)

/-- Arguments of `addStory`: identification fields plus optional
parameters and decorators (the raw render function and the
`applyDecorators` capability are function values outside the model; they
only feed the memoized decorated render function). -/
structure AddStoryArgs where
  id : String
  kind : String
  name : String
  parameters : PFields := .nil
  decorators : List Nat := []

/-- Error message thrown by `addStory` outside the configuring phase. -/
def addStoryErrorMessage : String :=
  "Cannot add a story when not configuring, see https://github.com/storybookjs/storybook/blob/next/MIGRATION.md#story-store-immutable-outside-of-configuration"

/-- Error message thrown by `remove` outside the configuring phase. -/
def removeErrorMessage : String :=
  "Cannot remove a story when not configuring, see https://github.com/storybookjs/storybook/blob/next/MIGRATION.md#story-store-immutable-outside-of-configuration"

/-- Error message thrown by `removeStoryKind` outside the configuring
phase. -/
def removeKindErrorMessage : String :=
  "Cannot remove a kind when not configuring, see https://github.com/storybookjs/storybook/blob/next/MIGRATION.md#story-store-immutable-outside-of-configuration"

/-- Default args derived from `parameters.argTypes`: for each arg type
entry with a truthy `defaultValue`, that value, in entry order. -/
def collectDefaultArgs : PFields → PFields
  | .nil => .nil
  | .cons k v rest =>
      match v with
      | .obj spec =>
          match spec.lookup "defaultValue" with
          | some dv =>
              if truthy dv then .cons k dv (collectDefaultArgs rest)
              else collectDefaultArgs rest
          | none => collectDefaultArgs rest
      | _ => collectDefaultArgs rest

/-- The `defaultArgs` computed inside `addStory`: args defaults pulled out
of `parameters.argTypes[*].defaultValue` (only truthy defaults taken,
non-object arg type entries contribute nothing). -/
def defaultArgsFrom (parameters : PFields) : PFields :=
  match parameters.lookup "argTypes" with
  | some (.obj entries) => collectDefaultArgs entries
  | _ => .nil

/-- The `initialArgs` computed inside `addStory`: `parameters.args || \x7b\x7d`
(a non-object value spreads no fields, so it contributes the empty
mapping). -/
def initialArgsFrom (parameters : PFields) : PFields :=
  match parameters.lookup "args" with
  | some (.obj o) => o
  | _ => .nil

/-- The parameter resolution performed by `addStory`: deep merge of
global, kind and story parameters, then the enhancer pipeline folded in
registration order, each result shallow-merged onto the accumulated
parameters. -/
def resolveParameters (enhancers : List ParameterEnhancer)
    (id kind name : String) (parametersBeforeEnhancement : PFields) : PFields :=
  enhancers.foldl
    (fun acc e =>
      shallowMerge acc
        (e { id := id, kind := kind, name := name, story := name,
             parameters := acc, args := .nil }))
    parametersBeforeEnhancement

/-- The method `addStory`.  Outside the configuring phase without the
`allowUnsafe` override it throws; otherwise it warns (log only) on a
duplicate id, ensures the kind, resolves parameters, computes initial
args, and stores the record (replacing any existing record under the same
id, without releasing its lifecycle resource). -/
def addStory (a : AddStoryArgs) (allowUnsafe : Bool) (st : StoreState) :
    Except String StoreState :=
  if !st.configuring && !allowUnsafe then .error addStoryErrorMessage
  else
    let st := ensureKind a.kind st
    let kindMeta := (recordLookup a.kind st.kinds).getD
      { order := 0, parameters := .nil, decorators := [] }
    let parametersBeforeEnhancement := combineParameters
      [st.globalParameters, kindMeta.parameters, a.parameters]
    let parameters := resolveParameters st.parameterEnhancers
      a.id a.kind a.name parametersBeforeEnhancement
    let item : StoreItem :=
      { id := a.id, kind := a.kind, name := a.name, story := a.name
        parameters := parameters
        args := shallowMerge (defaultArgsFrom parameters) (initialArgsFrom parameters) }
    .ok { st with stories := recordSet a.id item st.stories }

/-- The method `remove`: deletes the record under the id and, if one was
present, releases its lifecycle resource (`hooks.clean()`); absent id is
a no-op; outside the configuring phase without override it throws. -/
def remove (id : String) (allowUnsafe : Bool) (st : StoreState) :
    Except String StoreState :=
  if !st.configuring && !allowUnsafe then .error removeErrorMessage
  else
    let story := recordLookup id st.stories
    let st := { st with stories := st.stories.filter (fun kv => kv.1 ≠ id) }
    match story with
    | some _ => .ok { st with cleanedHooks := st.cleanedHooks ++ [id] }
    | none => .ok st

/-- The method `fromId`: the record under the id joined with the current
global args, `none` when absent (every record in the model carries its
render accessors, so the `getDecorated` guard and the catch branch of the
source never fire). -/
def fromId (id : String) (st : StoreState) : Option PublishedStoreItem :=
  (recordLookup id st.stories).map
    (fun data => { toStoreItem := data, globalArgs := st.globalArgs })

/-- The method `raw`: all story records passing the docs-only filter, in
insertion order, joined with the current global args through `fromId`
(the `getDecorated` filter keeps every record of the model, and story
ids are unique in the record map, so `fromId` hits the filtered record). -/
def raw (st : StoreState) (options : Option StoryOptions) :
    List PublishedStoreItem :=
  ((st.stories.map (fun kv => kv.2)).filter
      (fun i => includeStory i options)).map
    (fun i => { toStoreItem := i, globalArgs := st.globalArgs })

/-- The method `getStoriesForKind`. -/
def getStoriesForKind (kind : String) (st : StoreState) :
    List PublishedStoreItem :=
  (raw st none).filter (fun story => story.kind = kind)

/-- The method `cleanHooks`: logs the lifecycle release for the id when
the record exists. -/
def cleanHooks (id : String) (st : StoreState) : StoreState :=
  if (recordLookup id st.stories).isSome then
    { st with cleanedHooks := st.cleanedHooks ++ [id] }
  else st

/-- The method `cleanHooksForKind`: releases the lifecycle resource of
every story of the kind that `getStoriesForKind` lists (which goes through
`raw()` with default options, hence excludes docs-only stories). -/
def cleanHooksForKind (kind : String) (st : StoreState) : StoreState :=
  ((getStoriesForKind kind st).map (fun story => story.id)).foldl
    (fun s i => cleanHooks i s) st

/-- The method `removeStoryKind`: outside the configuring phase without
override it throws; unknown kind is a no-op; otherwise the kind record
keeps its order but parameters and decorators are reset, hooks are cleaned
through `cleanHooksForKind`, and every story of the kind is deleted. -/
def removeStoryKind (kind : String) (allowUnsafe : Bool) (st : StoreState) :
    Except String StoreState :=
  if !st.configuring && !allowUnsafe then .error removeKindErrorMessage
  else
    match recordLookup kind st.kinds with
    | none => .ok st
    | some _ =>
        let st :=
          { st with
            kinds := recordUpdate kind
              (fun m => { m with parameters := .nil, decorators := [] })
              st.kinds }
        let st := cleanHooksForKind kind st
        .ok { st with stories := st.stories.filter (fun kv => kv.2.kind ≠ kind) }

/-- The method `setGlobalArgs`: shallow-merges into the global args and
emits the change with the full resulting mapping (the source emits here
without a channel guard). -/
def setGlobalArgs (newGlobalArgs : PFields) (st : StoreState) : StoreState :=
  let st := { st with globalArgs := shallowMerge st.globalArgs newGlobalArgs }
  emitEvent (.globalArgsChanged st.globalArgs) st

/-- The method `setStoryArgs`: unknown id throws; otherwise shallow-merges
into the story args and emits the change with the resulting args (the
source emits here without a channel guard). -/
def setStoryArgs (id : String) (newArgs : PFields) (st : StoreState) :
    Except String StoreState :=
  match recordLookup id st.stories with
  | none => .error ("No story for id " ++ id)
  | some story =>
      let merged := shallowMerge story.args newArgs
      let st :=
        { st with stories := recordUpdate id (fun s => { s with args := merged }) st.stories }
      .ok (emitEvent (.storyArgsChanged id merged) st)

/-- The method `setSelection`: unconditional overwrite; with a channel it
emits the selection-was-set event, and additionally the render event when
not configuring (deferred to `finishConfiguring` otherwise). -/
def setSelection (selection : Selection) (st : StoreState) : StoreState :=
  let st := { st with selection := some selection }
  if st.channelPresent then
    let st := emitEvent (.currentStoryWasSet selection) st
    if !st.configuring then emitEvent .renderCurrentStory st else st
  else st

end StoryStore

namespace StoryStore

/-- A comparator over `[storyId, storyRecord]` entries, returning a signed
number as JavaScript comparators do. -/
abbrev StoryComparator := (String × StoreItem) → (String × StoreItem) → Int

/-- Insertion step of the stable sort: the new element goes after every
element strictly below it (`cmp y x < 0`) and before the first element
tied with or above it — so an element never crosses one it ties with. -/
def insertSorted {α : Type} (cmp : α → α → Int) (x : α) : List α → List α
  | [] => [x]
  | y :: ys => if cmp y x < 0 then y :: insertSorted cmp x ys else x :: y :: ys

/-- Model of `stable.inplace(list, cmp)`: a stable sort placing `a` no
later than `b` whenever `cmp a b ≤ 0`.  Implemented as a stable insertion
sort, which agrees with every stable sort (in particular the bottom-up
merge sort of the `stable` package) on any consistent comparator. -/
def stableSort {α : Type} (cmp : α → α → Int) : List α → List α
  | [] => []
  | x :: xs => insertSorted cmp x (stableSort cmp xs)

/-- The kind order of a story kind (`this._kinds[kind].order`).  Every
registered story has a kind record — `addStory` ensures it and kind
records are never deleted — so the default is unreachable on states
produced by the operations. -/
def kindOrder (st : StoreState) (kind : String) : Nat :=
  ((recordLookup kind st.kinds).map (fun m => m.order)).getD 0

/-- The comparator of the default branch of `extract`: difference of the
kind orders of the two entries. -/
def kindOrderComparator (st : StoreState) : StoryComparator :=
  fun s1 s2 => (kindOrder st s1.2.kind : Int) - (kindOrder st s2.2.kind : Int)

/-- The sort-selection scan of `extract`: the first story key (in
insertion order) whose `parameters.options` is truthy, and then the
`storySort` field of that story (field access on a truthy non-object
options value yields `undefined`). -/
def storySortParamOf (st : StoreState) : Option PValue :=
  match st.stories.find? (fun kv => truthyOpt (kv.2.parameters.lookup "options")) with
  | some kv =>
      match kv.2.parameters.lookup "options" with
      | some (.obj o) => o.lookup "storySort"
      | _ => none
  | none => none

/-- The comparator `extract` uses for a truthy `storySort` value: the
function itself (through the environment) when it is a function value, its
compilation by the external sort-spec compiler otherwise. -/
def storySortComparator (fnComparator : Nat → StoryComparator)
    (compileStorySort : PValue → StoryComparator) (v : PValue) :
    StoryComparator :=
  match v with
  | .func tag => fnComparator tag
  | _ => compileStorySort v

section Extraction

-- `fnComparator` is the environment resolving an opaque function value
-- used as a `storySort` parameter to the comparator it denotes.
-- `compileStorySort` is modelled from the spec: the external sort-spec
-- compiler (`storySort` from `src/lib/client-api/src/storySort.ts`, not
-- part of the provided sources) — per the spec (section 6) an external
-- pure function from a declarative sort spec to a comparator, used only
-- when the `storySort` parameter is not a function.  Both are abstract
-- section-wide parameters.
variable (fnComparator : Nat → StoryComparator)
variable (compileStorySort : PValue → StoryComparator)

/-- The projection `toExtracted`: drops the function-valued fields and the
`hooks` field of a record and keeps the rest.  The model record carries
exactly the non-function fields (none of which is array-valued, so the
array-sorting branch of the source has nothing to do), hence the
projection keeps all of them. -/
def toExtracted (v : StoreItem) : StoreItem :=
  { id := v.id, kind := v.kind, name := v.name, story := v.story
    parameters := v.parameters, args := v.args }

/-- The ordering pass of `extract`: the story entries sorted — by the
custom comparator when the sort-selection scan finds a truthy `storySort`
(the parameter itself when it is a function, its compilation otherwise),
by kind order otherwise, and not at all when the story map is empty. -/
def sortedEntries (st : StoreState) : List (String × StoreItem) :=
  if st.stories.length > 0 then
    match storySortParamOf st with
    | some ssp =>
        if truthy ssp then
          stableSort (storySortComparator fnComparator compileStorySort ssp)
            st.stories
        else stableSort (kindOrderComparator st) st.stories
    | none => stableSort (kindOrderComparator st) st.stories
  else st.stories

/-- The method `extract`: the ordering pass, then the entries passing the
docs-only filter, each record projected through `toExtracted`. -/
def extract (st : StoreState) (options : Option StoryOptions) :
    List (String × StoreItem) :=
  ((sortedEntries fnComparator compileStorySort st).filter
      (fun kv => includeStory kv.2 options)).map
    (fun kv => (kv.1, toExtracted kv.2))

/-- The method `getStoriesForManager`: extraction with docs-only stories
included. -/
def getStoriesForManager (st : StoreState) : List (String × StoreItem) :=
  extract fnComparator compileStorySort st (some { includeDocsOnly := true })

/-- The method `pushToManager`: with a channel, emits the stories
snapshot. -/
def pushToManager (st : StoreState) : StoreState :=
  if st.channelPresent then
    emitEvent (.setStories (getStoriesForManager fnComparator compileStorySort st)) st
  else st

/-- The method `finishConfiguring`: clears the configuring flag, pushes
the snapshot to the manager, then (with a channel) emits the render
event. -/
def finishConfiguring (st : StoreState) : StoreState :=
  let st := { st with configuring := false }
  let st := pushToManager fnComparator compileStorySort st
  if st.channelPresent then emitEvent .renderCurrentStory st else st

end Extraction

/-- The method `getRevision`. -/
def getRevision (st : StoreState) : Nat := st.revision

/-- The method `incrementRevision`. -/
def incrementRevision (st : StoreState) : StoreState :=
  { st with revision := st.revision + 1 }

/-- One public mutating operation of the store, used to quantify over
arbitrary call sequences. -/
inductive Op where
  | startConfiguring
  | finishConfiguring
  | addGlobalMetadata (parameters : PFields) (decorators : List Nat)
  | clearGlobalDecorators
  | ensureKind (kind : String)
  | addKindMetadata (kind : String) (parameters : PFields) (decorators : List Nat)
  | addParameterEnhancer (e : ParameterEnhancer)
  | addStory (a : AddStoryArgs) (allowUnsafe : Bool)
  | remove (id : String) (allowUnsafe : Bool)
  | removeStoryKind (kind : String) (allowUnsafe : Bool)
  | setGlobalArgs (newGlobalArgs : PFields)
  | setStoryArgs (id : String) (newArgs : PFields)
  | setSelection (selection : Selection)
  | incrementRevision

section OpSemantics

variable (fnComparator : Nat → StoryComparator)
variable (compileStorySort : PValue → StoryComparator)

/-- Result of a throwing operation as a state transition: the new state
on success, the unchanged state on a throw (every throwing operation of
the source throws before mutating anything). -/
def orKeep (r : Except String StoreState) (st : StoreState) : StoreState :=
  match r with
  | .ok s => s
  | .error _ => st

/-- Applies one operation; an operation that throws leaves the state
unchanged. -/
def applyOp (op : Op) (st : StoreState) : StoreState :=
  match op with
  | .startConfiguring => startConfiguring st
  | .finishConfiguring => finishConfiguring fnComparator compileStorySort st
  | .addGlobalMetadata p d => addGlobalMetadata p d st
  | .clearGlobalDecorators => clearGlobalDecorators st
  | .ensureKind k => ensureKind k st
  | .addKindMetadata k p d => addKindMetadata k p d st
  | .addParameterEnhancer e => orKeep (addParameterEnhancer e st) st
  | .addStory a u => orKeep (addStory a u st) st
  | .remove i u => orKeep (remove i u st) st
  | .removeStoryKind k u => orKeep (removeStoryKind k u st) st
  | .setGlobalArgs a => setGlobalArgs a st
  | .setStoryArgs i a => orKeep (setStoryArgs i a st) st
  | .setSelection s => setSelection s st
  | .incrementRevision => incrementRevision st

/-- Applies a sequence of operations left to right. -/
def applyOps (ops : List Op) (st : StoreState) : StoreState :=
  ops.foldl (fun s op => applyOp fnComparator compileStorySort op s) st

end OpSemantics

end StoryStore

namespace StoryStore

/-- Accumulated parameters of a kind, empty while the kind is unknown
(`ensureKind` creates exactly this empty mapping). -/
def kindParams (st : StoreState) (kind : String) : PFields :=
  ((recordLookup kind st.kinds).map (fun m => m.parameters)).getD .nil

/-- Whether the sort-selection scan of `extract` activates a custom sort:
truthiness of the `storySort` value found on the first story with truthy
`parameters.options`. -/
def storySortActive (st : StoreState) : Bool :=
  truthyOpt (storySortParamOf st)

/-- Whether one story declares a truthy sort specification under
`parameters.options.storySort`. -/
def declaresStorySort (i : StoreItem) : Bool :=
  truthyOpt
    (match i.parameters.lookup "options" with
     | some (.obj o) => o.lookup "storySort"
     | _ => none)

/-- Recognizer for the render event in the log. -/
def isRenderEvent : StoreEvent → Bool
  | .renderCurrentStory => true
  | _ => false

/-- Recognizer for the selection-was-set event in the log. -/
def isSelectionSetEvent : StoreEvent → Bool
  | .currentStoryWasSet _ => true
  | _ => false

/-- Key coherence of the story map: each record is stored under its own
id.  `addStory` stores records this way and every operation preserves it,
so it holds of every reachable state; theorems over arbitrary states take
it as a hypothesis where the source relies on it. -/
def storyKeysConsistent (st : StoreState) : Bool :=
  st.stories.all (fun kv => kv.1 = kv.2.id)

/-- Whether an operation is a metadata addition (global or kind). -/
def Op.isMetadataAdd : Op → Bool
  | .addGlobalMetadata _ _ => true
  | .addKindMetadata _ _ _ => true
  | _ => false

/-- Parameter payloads of the global metadata additions of a sequence, in
order. -/
def globalAdds : List Op → List PFields :=
  List.filterMap fun op =>
    match op with
    | .addGlobalMetadata p _ => some p
    | _ => none

/-- Parameter payloads of the metadata additions to one kind, in order. -/
def kindAdds (kind : String) : List Op → List PFields :=
  List.filterMap fun op =>
    match op with
    | .addKindMetadata k p _ => if k = kind then some p else none
    | _ => none

/-- Initial store with a pre-registered enhancer pipeline (the enhancers
must be registered before any story, per `addParameterEnhancer`). -/
def initialWithEnhancers (E : List ParameterEnhancer) : StoreState :=
  { initialStore true with parameterEnhancers := E }

/-- A comparator treating all entries as ties (used as a dummy compile
environment in concrete instances). -/
def zeroComparator : StoryComparator := fun _ _ => 0

/-- A comparator ordering entries by descending key length (a concrete
custom sort used in counterexamples, chosen to visibly reorder the
fixture). -/
def descendingKeyComparator : StoryComparator :=
  fun s1 s2 => (s2.1.length : Int) - (s1.1.length : Int)

/-- Concrete function-comparator environment for witnesses: every tag
denotes the descending-key-length comparator. -/
def fnEnv : Nat → StoryComparator := fun _ => descendingKeyComparator

/-- Concrete sort-spec compile environment for witnesses. -/
def csEnv : PValue → StoryComparator := fun _ => zeroComparator

/-- An empty store whose configuring phase has been cleared. -/
def configuredEmptyStore : StoreState :=
  { initialStore true with configuring := false }

/-- Fixture for group removal: kind `k` holds a plain story and a
docs-only story, kind `other` holds a third story. -/
def removeKindFixture : StoreState :=
  applyOps fnEnv csEnv
    [ .addStory { id := "k--s1", kind := "k", name := "s1" } false,
      .addStory { id := "k--s2", kind := "k", name := "s2",
                  parameters := .ofList [("docsOnly", .bool true)] } false,
      .addStory { id := "other--s3", kind := "other", name := "s3" } false ]
    (initialStore true)

/-- Fixture for the enhancer guard: a store that has had a story. -/
def enhancerFixtureAdded : StoreState :=
  applyOps fnEnv csEnv
    [ .addStory { id := "k--s1", kind := "k", name := "s1" } false ]
    (initialStore true)

/-- Fixture for the enhancer guard: the same store after the story was
removed again. -/
def enhancerFixtureRemoved : StoreState :=
  applyOps fnEnv csEnv [ .remove "k--s1" false ] enhancerFixtureAdded

/-- Fixture for the sort selection: the first registered story carries a
truthy but empty `parameters.options`, the second declares a function
`storySort` (tag 0). -/
def sortFixture : StoreState :=
  applyOps fnEnv csEnv
    [ .addStory { id := "k--a", kind := "k", name := "a",
                  parameters := .ofList [("options", .obj .nil)] } false,
      .addStory { id := "k--bb", kind := "k", name := "bb",
                  parameters :=
                    .ofList [("options",
                      .obj (.ofList [("storySort", .func 0)]))] } false ]
    (initialStore true)

/-- A concrete enhancer used in witnesses. -/
def witnessEnhancer : ParameterEnhancer :=
  fun _ => .ofList [("enhanced", .bool true)]

/-- A metadata sequence: global, kind `k`, global again. -/
def metaOpsW : List Op :=
  [ .addGlobalMetadata (.ofList [("g", .num 1)]) [],
    .addKindMetadata "k" (.ofList [("p", .num 2)]) [],
    .addGlobalMetadata (.ofList [("g2", .num 3)]) [] ]

/-- An interleaving of `metaOpsW` with the same global and per-kind
projections. -/
def metaOpsW2 : List Op :=
  [ .addKindMetadata "k" (.ofList [("p", .num 2)]) [],
    .addGlobalMetadata (.ofList [("g", .num 1)]) [],
    .addGlobalMetadata (.ofList [("g2", .num 3)]) [] ]

/-- Ids of the stories of a kind that the clean-up of `removeStoryKind`
enumerates: the registered records passing the default inclusion filter
(docs-only excluded) whose kind matches, in insertion order. -/
def kindCleanIds (kind : String) (st : StoreState) : List String :=
  ((st.stories.map (fun kv => kv.2)).filter
    (fun i => decide (i.kind = kind) && includeStory i none)).map
    (fun i => i.id)

/-- Concrete `addStory` arguments for the parameter-resolution witness:
a story of kind `k` with its own parameters. -/
def kindKStoryArgs : AddStoryArgs :=
  { id := "k--s1", kind := "k", name := "s1",
    parameters := .ofList [("s", .num 9)] }

/-- Concrete `addStory` arguments used in witnesses. -/
def buttonStoryArgs : AddStoryArgs :=
  { id := "button--primary", kind := "button", name := "primary" }

/-- Whether a throwing operation succeeded. -/
def succeeded (r : Except String StoreState) : Bool :=
  match r with
  | .ok _ => true
  | .error _ => false

end StoryStore

open StoryStore

/-- Deep merge of two objects is the object of the merged field lists. -/
theorem mergeValue_obj (a b : PFields) :
    mergeValue (.obj a) (.obj b) = .obj (mergeFields a b) := by
  rw [mergeValue, mergeFields]

/-- Replacement behaviour of the deep merge: whenever either side is not a
plain object, the later value replaces the earlier one entirely (in
particular arrays are replaced, never concatenated or merged). -/
theorem mergeValue_replace (x y : PValue)
    (h : (∀ a, x ≠ .obj a) ∨ (∀ b, y ≠ .obj b)) : mergeValue x y = y := by
  cases x <;> cases y <;>
    first
      | (exfalso
         rcases h with h | h <;> exact h _ rfl)
      | simp [mergeValue]

/-! Generic lemmas about `Record` association lists. -/

theorem recordLookup_append {α : Type} (k : String) (a b : List (String × α)) :
    recordLookup k (a ++ b)
      = match recordLookup k a with
        | some v => some v
        | none => recordLookup k b := by
  induction a with
  | nil => simp [recordLookup]
  | cons kv rest ih =>
      obtain ⟨k1, v⟩ := kv
      by_cases h : k1 = k
      · simp [recordLookup, h]
      · simp [recordLookup, h, ih]

theorem recordLookup_isSome_of_mem {α : Type} {k : String} {v : α}
    {m : List (String × α)} (h : (k, v) ∈ m) :
    (recordLookup k m).isSome = true := by
  induction m with
  | nil => simp at h
  | cons kv rest ih =>
      obtain ⟨k1, w⟩ := kv
      rcases List.mem_cons.mp h with h1 | h1
      · cases h1
        simp [recordLookup]
      · by_cases hk : k1 = k
        · simp [recordLookup, hk]
        · simp [recordLookup, hk, ih h1]

theorem recordLookup_recordSet_self {α : Type} (k : String) (v : α)
    (m : List (String × α)) : recordLookup k (recordSet k v m) = some v := by
  induction m with
  | nil => simp [recordSet, recordLookup]
  | cons kv rest ih =>
      obtain ⟨k1, w⟩ := kv
      by_cases hk : k1 = k
      · simp [recordSet, recordLookup, hk]
      · simp [recordSet, recordLookup, hk, ih]

theorem recordLookup_recordSet_ne {α : Type} (k k1 : String) (v : α)
    (m : List (String × α)) (h : k ≠ k1) :
    recordLookup k1 (recordSet k v m) = recordLookup k1 m := by
  induction m with
  | nil => simp [recordSet, recordLookup, fun hc : k = k1 => h hc]
  | cons kv rest ih =>
      obtain ⟨k2, w⟩ := kv
      by_cases hk : k2 = k
      · subst hk
        have hne : ¬ k2 = k1 := fun hc => h (hc ▸ rfl)
        simp [recordSet, recordLookup, hne]
      · by_cases hk1 : k2 = k1
        · simp [recordSet, recordLookup, hk, hk1, Ne.symm h]
        · simp [recordSet, recordLookup, hk, hk1, ih]

theorem recordLookup_recordUpdate_self {α : Type} (k : String) (f : α → α)
    (m : List (String × α)) :
    recordLookup k (recordUpdate k f m) = (recordLookup k m).map f := by
  induction m with
  | nil => rfl
  | cons kv rest ih =>
      obtain ⟨k1, w⟩ := kv
      by_cases hk : k1 = k
      · simp [recordUpdate, recordLookup, hk]
      · simp [recordUpdate, recordLookup, hk, ih]

theorem recordLookup_recordUpdate_ne {α : Type} (k k1 : String) (f : α → α)
    (m : List (String × α)) (h : k ≠ k1) :
    recordLookup k1 (recordUpdate k f m) = recordLookup k1 m := by
  induction m with
  | nil => rfl
  | cons kv rest ih =>
      obtain ⟨k2, w⟩ := kv
      by_cases hk : k2 = k
      · subst hk
        have hne : ¬ k2 = k1 := fun hc => h (hc ▸ rfl)
        simp [recordUpdate, recordLookup, hne]
      · by_cases hk1 : k2 = k1
        · simp [recordUpdate, recordLookup, hk, hk1, Ne.symm h]
        · simp [recordUpdate, recordLookup, hk, hk1, ih]

/-! Lemmas about the stable insertion sort. -/

theorem insertSorted_perm {α : Type} (cmp : α → α → Int) (x : α) (l : List α) :
    List.Perm (StoryStore.insertSorted cmp x l) (x :: l) := by
  induction l with
  | nil => simp [StoryStore.insertSorted]
  | cons y ys ih =>
      rw [StoryStore.insertSorted]
      split
      · exact (ih.cons y).trans (List.Perm.swap x y ys)
      · exact List.Perm.refl _

theorem stableSort_perm {α : Type} (cmp : α → α → Int) (l : List α) :
    List.Perm (StoryStore.stableSort cmp l) l := by
  induction l with
  | nil => exact .refl _
  | cons x xs ih =>
      exact (insertSorted_perm cmp x _).trans (ih.cons x)

theorem insertSorted_filter_pos {α : Type} (cmp : α → α → Int) (p : α → Bool)
    (x : α) (l : List α) (hx : p x = true)
    (hp : ∀ a b, p a = true → p b = true → cmp a b = 0) :
    (StoryStore.insertSorted cmp x l).filter p = x :: l.filter p := by
  induction l with
  | nil => simp [StoryStore.insertSorted, hx]
  | cons y ys ih =>
      rw [StoryStore.insertSorted]
      split
      · rename_i hlt
        have hy : p y = false := by
          by_contra hc
          have h0 : cmp y x = 0 := hp y x (by simpa using hc) hx
          omega
        simp [List.filter_cons, hy, ih]
      · simp [List.filter_cons, hx]

theorem insertSorted_filter_neg {α : Type} (cmp : α → α → Int) (p : α → Bool)
    (x : α) (l : List α) (hx : p x = false) :
    (StoryStore.insertSorted cmp x l).filter p = l.filter p := by
  induction l with
  | nil => simp [StoryStore.insertSorted, hx]
  | cons y ys ih =>
      rw [StoryStore.insertSorted]
      split
      · simp [List.filter_cons, ih]
      · simp [List.filter_cons, hx]

theorem stableSort_filter {α : Type} (cmp : α → α → Int) (p : α → Bool)
    (hp : ∀ a b, p a = true → p b = true → cmp a b = 0) :
    ∀ l : List α, (StoryStore.stableSort cmp l).filter p = l.filter p
  | [] => rfl
  | x :: xs => by
      rw [StoryStore.stableSort]
      by_cases hx : p x = true
      · rw [insertSorted_filter_pos cmp p x _ hx hp,
          stableSort_filter cmp p hp xs]
        simp [List.filter_cons, hx]
      · have hx1 : p x = false := by simpa using hx
        rw [insertSorted_filter_neg cmp p x _ hx1,
          stableSort_filter cmp p hp xs]
        simp [List.filter_cons, hx1]

theorem insertSorted_pairwise {α : Type} (f : α → Nat) (x : α) (l : List α)
    (h : List.Pairwise (fun a b => f a ≤ f b) l) :
    List.Pairwise (fun a b => f a ≤ f b)
      (StoryStore.insertSorted (fun a b => (f a : Int) - (f b : Int)) x l) := by
  induction l with
  | nil => simp [StoryStore.insertSorted]
  | cons y ys ih =>
      rw [StoryStore.insertSorted]
      rcases List.pairwise_cons.mp h with ⟨hy, hys⟩
      split
      · rename_i hlt
        have hyx : f y ≤ f x := by omega
        refine List.pairwise_cons.mpr ⟨?_, ih hys⟩
        intro b hb
        have hb1 := (insertSorted_perm _ x ys).mem_iff.mp hb
        rcases List.mem_cons.mp hb1 with hb2 | hb2
        · exact hb2 ▸ hyx
        · exact hy b hb2
      · rename_i hge
        have hxy : f x ≤ f y := by omega
        refine List.pairwise_cons.mpr ⟨?_, h⟩
        intro b hb
        rcases List.mem_cons.mp hb with hb | hb
        · exact hb ▸ hxy
        · exact le_trans hxy (hy b hb)

theorem stableSort_pairwise {α : Type} (f : α → Nat) (l : List α) :
    List.Pairwise (fun a b => f a ≤ f b)
      (StoryStore.stableSort (fun a b => (f a : Int) - (f b : Int)) l) := by
  induction l with
  | nil => simp [StoryStore.stableSort]
  | cons x xs ih =>
      rw [StoryStore.stableSort]
      exact insertSorted_pairwise f x _ ih

/-- C4 counterexample: with the configuring flag cleared and no override,
the metadata additions are not rejected — `addGlobalMetadata` and
`addKindMetadata` mutate the store normally (the source has no
configuring-phase check in either), refuting the claim that every
structural mutation, including metadata additions, is rejected once the
flag is cleared. -/
theorem c4_counterexample :
    configuredEmptyStore.configuring = false ∧
    (addGlobalMetadata (.ofList [("a", .num 1)]) [7]
        configuredEmptyStore).globalParameters
      = .ofList [("a", .num 1)] ∧
    (addGlobalMetadata (.ofList [("a", .num 1)]) [7]
        configuredEmptyStore).globalDecorators = [7] ∧
    (addKindMetadata "k" (.ofList [("b", .num 2)]) [9]
        configuredEmptyStore).kinds
      = [("k", { order := 0, parameters := .ofList [("b", .num 2)],
                 decorators := [9] })] := by
  refine ⟨rfl, ?_, rfl, ?_⟩ <;> decide

/-- C4 (amended): once the configuring flag is cleared and no override is
given, `addStory`, `remove` and `removeStoryKind` are rejected with the
immutability errors, while metadata additions (`addGlobalMetadata`,
`addKindMetadata`) are not guarded and still apply, and argument and
selection mutation remain permitted exactly as in the configuring
phase. -/
theorem c4_immutability_scope (st : StoreState)
    (h : st.configuring = false) (a : AddStoryArgs) (id kind : String)
    (p : PFields) (d : List Nat) (args : PFields) (sel : Selection) :
    addStory a false st = .error addStoryErrorMessage ∧
    remove id false st = .error removeErrorMessage ∧
    removeStoryKind kind false st = .error removeKindErrorMessage ∧
    (addGlobalMetadata p d st).globalParameters
      = combineParameters [st.globalParameters, p] ∧
    (addGlobalMetadata p d st).globalDecorators = st.globalDecorators ++ d ∧
    kindParams (addKindMetadata kind p d st) kind
      = combineParameters [kindParams st kind, p] ∧
    (setGlobalArgs args st).globalArgs = shallowMerge st.globalArgs args ∧
    (succeeded (setStoryArgs id args st)
      = (recordLookup id st.stories).isSome) ∧
    (setSelection sel st).selection = some sel := by
  refine ⟨?_, ?_, ?_, rfl, rfl, ?_, rfl, ?_, ?_⟩
  · rw [addStory, if_pos (by rw [h]; rfl)]
  · rw [remove, if_pos (by rw [h]; rfl)]
  · rw [removeStoryKind, if_pos (by rw [h]; rfl)]
  · rw [addKindMetadata, ensureKind]
    cases hlk : recordLookup kind st.kinds with
    | some m =>
        simp [kindParams, recordLookup_recordUpdate_self, hlk]
    | none =>
        simp only [kindParams, recordLookup_recordUpdate_self,
          recordLookup_append, hlk]
        simp [recordLookup, hlk]
  · rw [setStoryArgs]
    cases hlk : recordLookup id st.stories with
    | some m => simp [succeeded]
    | none => simp [succeeded]
  · rw [setSelection]
    cases hch : st.channelPresent with
    | true =>
        simp only [hch, if_true]
        cases hc : st.configuring <;> simp [emitEvent]
    | false => simp [hch]

/-- C4 witness: the amended statement instantiated at the configured
empty store. -/
theorem c4_immutability_scope_witness :
    configuredEmptyStore.configuring = false ∧
    (addStory { id := "x--y", kind := "x", name := "y" } false
        configuredEmptyStore = .error addStoryErrorMessage ∧
      remove "x--y" false configuredEmptyStore = .error removeErrorMessage ∧
      removeStoryKind "x" false configuredEmptyStore
        = .error removeKindErrorMessage ∧
      (addGlobalMetadata (.ofList [("a", .num 1)]) [7]
          configuredEmptyStore).globalParameters
        = combineParameters [configuredEmptyStore.globalParameters,
            .ofList [("a", .num 1)]] ∧
      (addGlobalMetadata (.ofList [("a", .num 1)]) [7]
          configuredEmptyStore).globalDecorators
        = configuredEmptyStore.globalDecorators ++ [7] ∧
      kindParams (addKindMetadata "x" (.ofList [("a", .num 1)]) [7]
          configuredEmptyStore) "x"
        = combineParameters [kindParams configuredEmptyStore "x",
            .ofList [("a", .num 1)]] ∧
      (setGlobalArgs (.ofList [("a", .num 1)])
          configuredEmptyStore).globalArgs
        = shallowMerge configuredEmptyStore.globalArgs
            (.ofList [("a", .num 1)]) ∧
      (succeeded (setStoryArgs "x--y" (.ofList [("a", .num 1)])
            configuredEmptyStore)
        = (recordLookup "x--y" configuredEmptyStore.stories).isSome) ∧
      (setSelection { storyId := "x--y", viewMode := "story" }
          configuredEmptyStore).selection
        = some { storyId := "x--y", viewMode := "story" }) :=
  ⟨rfl, c4_immutability_scope configuredEmptyStore rfl
    { id := "x--y", kind := "x", name := "y" } "x--y" "x"
    (.ofList [("a", .num 1)]) [7] (.ofList [("a", .num 1)])
    { storyId := "x--y", viewMode := "story" }⟩

/-- C5 counterexample: outside the configuring phase without the
override flag, `addStory` throws the fixed immutability message, and that
message does not contain the story id being added (the character list of
the id is not an infix of the character list of the message) — refuting
that the error names the story id. -/
theorem c5_counterexample :
    configuredEmptyStore.configuring = false ∧
    addStory buttonStoryArgs false configuredEmptyStore
      = .error addStoryErrorMessage ∧
    ¬ ("button--primary".toList <:+: addStoryErrorMessage.toList) := by
  refine ⟨rfl, rfl, ?_⟩
  decide

/-- C5 (amended): every `addStory` call made while the registry is not
configuring and without the override flag fails with the fixed
immutable-store error message (which does not name the story id); with
the override flag the same call succeeds and the story is registered. -/
theorem c5_addStory_guard (a : AddStoryArgs) (st : StoreState)
    (h : st.configuring = false) :
    addStory a false st = .error addStoryErrorMessage ∧
    ∃ st', addStory a true st = .ok st' ∧
      (recordLookup a.id st'.stories).isSome = true := by
  constructor
  · rw [addStory, if_pos (by rw [h]; rfl)]
  · cases hres : addStory a true st with
    | error e =>
        rw [addStory, if_neg (by simp)] at hres
        exact Except.noConfusion hres
    | ok st' =>
        refine ⟨st', rfl, ?_⟩
        rw [addStory, if_neg (by simp)] at hres
        cases hres
        simp [recordLookup_recordSet_self]

/-- C5 witness: the amended statement at a concrete non-configuring store
and story. -/
theorem c5_addStory_guard_witness :
    configuredEmptyStore.configuring = false ∧
    (addStory buttonStoryArgs false configuredEmptyStore
        = .error addStoryErrorMessage ∧
      ∃ st', addStory buttonStoryArgs true configuredEmptyStore = .ok st' ∧
        (recordLookup buttonStoryArgs.id st'.stories).isSome = true) :=
  ⟨rfl, c5_addStory_guard buttonStoryArgs configuredEmptyStore rfl⟩

/-- C8 counterexample: a story is registered and then removed again; even
though a story has been registered in the past, the subsequent
`addParameterEnhancer` call succeeds (the source checks the current story
count only) — refuting that every call after the first-ever registration
fails. -/
theorem c8_counterexample :
    (recordLookup "k--s1" enhancerFixtureAdded.stories).isSome = true ∧
    enhancerFixtureRemoved.stories = [] ∧
    succeeded (addParameterEnhancer witnessEnhancer enhancerFixtureRemoved)
      = true := by
  refine ⟨by decide, by decide, by decide⟩

/-- C8 (amended): `addParameterEnhancer` fails exactly while at least one
story is currently registered; with the story map empty — including after
every registered story has been removed — it succeeds and appends the
enhancer to the pipeline. -/
theorem c8_enhancer_guard (e : ParameterEnhancer) (st : StoreState) :
    (st.stories = [] →
      addParameterEnhancer e st
        = .ok { st with
            parameterEnhancers := st.parameterEnhancers ++ [e] }) ∧
    (st.stories ≠ [] →
      addParameterEnhancer e st
        = .error ("Cannot add a parameter enhancer to the store after a story has been added.")) := by
  constructor
  · intro h
    rw [addParameterEnhancer, if_neg (by simp [h])]
  · intro h
    rw [addParameterEnhancer, if_pos (by
      cases hs : st.stories with
      | nil => exact absurd hs h
      | cons a l => simp [hs])]

/-- C8 witness: the amended statement at the drained fixture store. -/
theorem c8_enhancer_guard_witness :
    enhancerFixtureRemoved.stories = [] ∧
    addParameterEnhancer witnessEnhancer enhancerFixtureRemoved
      = .ok { enhancerFixtureRemoved with
          parameterEnhancers :=
            enhancerFixtureRemoved.parameterEnhancers ++ [witnessEnhancer] } :=
  ⟨by decide,
    (c8_enhancer_guard witnessEnhancer enhancerFixtureRemoved).1 (by decide)⟩

/-- The ordering pass of `extract` permutes the registered entries. -/
theorem sortedEntries_perm (fc : Nat → StoryComparator)
    (cs : PValue → StoryComparator) (st : StoreState) :
    List.Perm (sortedEntries fc cs st) st.stories := by
  rw [sortedEntries]
  split
  · split
    · split
      · exact stableSort_perm _ _
      · exact stableSort_perm _ _
    · exact stableSort_perm _ _
  · exact .refl _

/-- C9: `extract` and `raw` obey the same docs-only filtering rule with
the same default.  The rule keeps a story exactly when the
`includeDocsOnly` option is truthy or the story is not docs-only; absent
options default to excluding docs-only stories; `raw` returns precisely
the records passing the rule, in insertion order, and the records of the
`extract` output are a permutation of the projections of those same
records. -/
theorem c9_docsOnly_filter (fc : Nat → StoryComparator)
    (cs : PValue → StoryComparator) (st : StoreState)
    (options : Option StoryOptions) :
    (∀ i : StoreItem, includeStory i options
        = ((options.getD {}).includeDocsOnly
            || !(isStoryDocsOnly i.parameters))) ∧
    (∀ i : StoreItem, includeStory i none
        = !(isStoryDocsOnly i.parameters)) ∧
    (raw st options).map (fun i => i.toStoreItem)
      = (st.stories.map (fun kv => kv.2)).filter
          (fun i => includeStory i options) ∧
    List.Perm ((extract fc cs st options).map (fun kv => kv.2))
      (((st.stories.map (fun kv => kv.2)).filter
          (fun i => includeStory i options)).map toExtracted) := by
  refine ⟨?_, ?_, ?_, ?_⟩
  · intro i
    cases h : (options.getD {}).includeDocsOnly <;>
      simp [includeStory, h]
  · intro i
    rfl
  · rw [raw, List.map_map]
    rw [show ((fun (i : PublishedStoreItem) => i.toStoreItem)
        ∘ (fun i => ({ toStoreItem := i, globalArgs := st.globalArgs }
            : PublishedStoreItem))) = id from rfl]
    exact List.map_id _
  · rw [extract, List.map_map, List.filter_map, List.map_map]
    have h1 := ((sortedEntries_perm fc cs st).filter
      (fun kv => includeStory kv.2 options)).map
      (fun kv => toExtracted kv.2)
    simpa [Function.comp] using h1

/-- C6: `setSelection` unconditionally overwrites the selection and (with
a channel) emits the selection-was-set event; when not configuring it
additionally emits the render event immediately; and a selection set
while configuring, followed by `finishConfiguring`, yields exactly one
render emission and exactly one selection-was-set emission among the
events produced since — never zero, never duplicated. -/
theorem c6_setSelection_render (fc : Nat → StoryComparator)
    (cs : PValue → StoryComparator) (st : StoreState) (sel : Selection)
    (hch : st.channelPresent = true) :
    (setSelection sel st).selection = some sel ∧
    (st.configuring = false →
      (setSelection sel st).events
        = st.events ++ [.currentStoryWasSet sel, .renderCurrentStory]) ∧
    (st.configuring = true →
      (setSelection sel st).events
        = st.events ++ [.currentStoryWasSet sel] ∧
      ((finishConfiguring fc cs (setSelection sel st)).events.drop
          st.events.length).countP isRenderEvent = 1 ∧
      ((finishConfiguring fc cs (setSelection sel st)).events.drop
          st.events.length).countP isSelectionSetEvent = 1) := by
  refine ⟨?_, ?_, ?_⟩
  · rw [setSelection]
    simp only [hch, if_true, emitEvent]
    split <;> rfl
  · intro hconf
    rw [setSelection]
    simp [hch, hconf, emitEvent]
  · intro hconf
    have h2 : (setSelection sel st).events
        = st.events ++ [.currentStoryWasSet sel] := by
      rw [setSelection]
      simp [hch, hconf, emitEvent]
    have hch2 : (setSelection sel st).channelPresent = true := by
      rw [setSelection]
      simp [hch, hconf, emitEvent]
    refine ⟨h2, ?_, ?_⟩ <;>
    · rw [finishConfiguring, pushToManager]
      simp only [hch2, if_true, emitEvent, h2]
      rw [List.append_assoc, List.append_assoc, List.drop_left]
      simp [isRenderEvent, isSelectionSetEvent]

/-- C6 witness: with the initial (configuring) store, setting a selection
and finishing configuration produces exactly one render emission and one
selection-was-set emission. -/
theorem c6_setSelection_render_witness :
    ((finishConfiguring fnEnv csEnv (setSelection
        { storyId := "k--s1", viewMode := "story" }
        (initialStore true))).events.drop
      (initialStore true).events.length).countP isRenderEvent = 1 ∧
    ((finishConfiguring fnEnv csEnv (setSelection
        { storyId := "k--s1", viewMode := "story" }
        (initialStore true))).events.drop
      (initialStore true).events.length).countP isSelectionSetEvent = 1 := by
  have h := (c6_setSelection_render fnEnv csEnv (initialStore true)
    { storyId := "k--s1", viewMode := "story" } rfl).2.2 rfl
  exact ⟨h.2.1, h.2.2⟩

/-- C10: `finishConfiguring` clears the configuring flag and, with a
channel present, emits the stories snapshot — built with docs-only
stories included, so every registered story id appears in the payload —
followed by the render event, regardless of the rest of the state (in
particular even when no selection was ever set). -/
theorem c10_finishConfiguring (fc : Nat → StoryComparator)
    (cs : PValue → StoryComparator) (st : StoreState)
    (hch : st.channelPresent = true) :
    (finishConfiguring fc cs st).configuring = false ∧
    (finishConfiguring fc cs st).events
      = st.events
        ++ [.setStories (extract fc cs { st with configuring := false }
              (some { includeDocsOnly := true })),
            .renderCurrentStory] ∧
    (∀ kv ∈ st.stories,
      kv.1 ∈ (extract fc cs { st with configuring := false }
          (some { includeDocsOnly := true })).map (fun e => e.1)) := by
  refine ⟨?_, ?_, ?_⟩
  · rw [finishConfiguring, pushToManager]
    simp [hch, emitEvent]
  · rw [finishConfiguring, pushToManager]
    simp only [hch, if_true, emitEvent]
    rw [List.append_assoc]
    rfl
  · intro kv hkv
    rw [extract]
    have hfilter : (sortedEntries fc cs { st with configuring := false }).filter
        (fun e => includeStory e.2 (some { includeDocsOnly := true }))
        = sortedEntries fc cs { st with configuring := false } :=
      List.filter_eq_self.mpr (fun a _ => rfl)
    rw [hfilter, List.map_map]
    have hperm := (sortedEntries_perm fc cs
      { st with configuring := false }).map
      (fun e => ((fun e => e.1) ∘ fun e => (e.1, toExtracted e.2)) e)
    have hmem : kv.1 ∈ st.stories.map
        (fun e => ((fun e => e.1) ∘ fun e => (e.1, toExtracted e.2)) e) := by
      simp only [Function.comp]
      exact List.mem_map.mpr ⟨kv, hkv, rfl⟩
    exact hperm.mem_iff.mpr hmem

/-- C10 witness: the statement at the initial store (no selection ever
set, no stories). -/
theorem c10_finishConfiguring_witness :
    (finishConfiguring fnEnv csEnv (initialStore true)).configuring = false ∧
    (finishConfiguring fnEnv csEnv (initialStore true)).events
      = (initialStore true).events
        ++ [.setStories (extract fnEnv csEnv
              { initialStore true with configuring := false }
              (some { includeDocsOnly := true })),
            .renderCurrentStory] ∧
    (∀ kv ∈ (initialStore true).stories,
      kv.1 ∈ (extract fnEnv csEnv
          { initialStore true with configuring := false }
          (some { includeDocsOnly := true })).map (fun e => e.1)) :=
  c10_finishConfiguring fnEnv csEnv (initialStore true) rfl

/-- Folding `cleanHooks` over ids of present records appends exactly those
ids to the cleaned log and changes nothing else. -/
theorem cleanHooks_foldl (ids : List String) (st : StoreState)
    (h : ∀ id ∈ ids, (recordLookup id st.stories).isSome = true) :
    ids.foldl (fun s i => cleanHooks i s) st
      = { st with cleanedHooks := st.cleanedHooks ++ ids } := by
  induction ids generalizing st with
  | nil => simp
  | cons i rest ih =>
      rw [List.foldl_cons, cleanHooks,
        if_pos (h i (List.mem_cons_self i rest))]
      rw [ih { st with cleanedHooks := st.cleanedHooks ++ [i] }
        (fun id hid => h id (List.mem_cons_of_mem i hid))]
      simp

/-- Characterization of `cleanHooksForKind` on a key-coherent state: it
appends to the cleaned log the ids of exactly the stories of the kind
that pass the default inclusion filter (which excludes docs-only
stories), in insertion order, and changes nothing else. -/
theorem cleanHooksForKind_eq (kind : String) (st : StoreState)
    (hkeys : storyKeysConsistent st = true) :
    cleanHooksForKind kind st
      = { st with cleanedHooks := st.cleanedHooks ++ kindCleanIds kind st } := by
  rw [cleanHooksForKind]
  have hids : ((getStoriesForKind kind st).map (fun story => story.id))
      = kindCleanIds kind st := by
    rw [getStoriesForKind, raw, List.filter_map, List.filter_filter,
      List.map_map, kindCleanIds]
    rfl
  rw [hids]
  apply cleanHooks_foldl
  intro id hid
  rcases List.mem_map.mp hid with ⟨i, hi, hidEq⟩
  rcases List.mem_filter.mp hi with ⟨hi2, _⟩
  rcases List.mem_map.mp hi2 with ⟨kv, hkv, hkvEq⟩
  have hkey : kv.1 = kv.2.id := by
    have h1 := List.all_eq_true.mp hkeys kv hkv
    simpa using h1
  have hmem : (kv.1, kv.2) ∈ st.stories := hkv
  have hkid : kv.1 = id := by rw [hkey, hkvEq, hidEq]
  rw [← hkid]
  exact recordLookup_isSome_of_mem hmem

/-- C3 counterexample: a docs-only story of the removed group is deleted
but its lifecycle resource is never released — `cleanHooksForKind`
enumerates the stories through `raw()` with default options, which
excludes docs-only stories — refuting that group removal invokes
`hooks.clean()` for every currently-registered story of the group. -/
theorem c3_counterexample :
    (recordLookup "k--s2" removeKindFixture.stories).map (fun i => i.kind)
      = some "k" ∧
    (orKeep (removeStoryKind "k" false removeKindFixture)
        removeKindFixture).cleanedHooks = ["k--s1"] ∧
    recordLookup "k--s2" (orKeep (removeStoryKind "k" false removeKindFixture)
        removeKindFixture).stories = none := by
  refine ⟨by decide, by decide, by decide⟩

/-- C3 (amended): with the configuring flag set and no override needed,
removing a never-seen group is a no-op, and removing an existing group
resets its parameters and decorators to empty while preserving its order,
releases the lifecycle resource of exactly those currently-registered
stories of the group that are not docs-only (the clean-up enumerates
stories through `raw()` with default options), and then deletes all story
records of the group. -/
theorem c3_removeStoryKind (kind : String) (st : StoreState)
    (hconf : st.configuring = true)
    (hkeys : storyKeysConsistent st = true) :
    (recordLookup kind st.kinds = none →
      removeStoryKind kind false st = .ok st) ∧
    (∀ m : KindMetadata, recordLookup kind st.kinds = some m →
      ∃ st', removeStoryKind kind false st = .ok st' ∧
        recordLookup kind st'.kinds
          = some { order := m.order, parameters := .nil, decorators := [] } ∧
        st'.stories = st.stories.filter (fun kv => !(kv.2.kind = kind)) ∧
        st'.cleanedHooks = st.cleanedHooks ++ kindCleanIds kind st) := by
  have hguard : ¬((!st.configuring && !false) = true) := by simp [hconf]
  constructor
  · intro hnone
    rw [removeStoryKind, if_neg hguard, hnone]
  · intro m hm
    have hclean := cleanHooksForKind_eq kind
      { st with
        kinds :=
          recordUpdate kind
            (fun m => { m with parameters := PFields.nil, decorators := [] })
            st.kinds }
      hkeys
    rw [removeStoryKind, if_neg hguard, hm]
    refine ⟨_, rfl, ?_, ?_, ?_⟩
    · rw [hclean]
      show recordLookup kind (recordUpdate kind _ st.kinds) = _
      rw [recordLookup_recordUpdate_self, hm]
      rfl
    · rw [hclean]
      simp [decide_not]
    · rw [hclean]
      rfl

/-- C3 witness: the amended statement at the fixture store and kind
`k` (which holds one plain and one docs-only story). -/
theorem c3_removeStoryKind_witness :
    (recordLookup "k" removeKindFixture.kinds = none →
      removeStoryKind "k" false removeKindFixture = .ok removeKindFixture) ∧
    (∀ m : KindMetadata, recordLookup "k" removeKindFixture.kinds = some m →
      ∃ st', removeStoryKind "k" false removeKindFixture = .ok st' ∧
        recordLookup "k" st'.kinds
          = some { order := m.order, parameters := .nil, decorators := [] } ∧
        st'.stories = removeKindFixture.stories.filter
          (fun kv => !(kv.2.kind = "k")) ∧
        st'.cleanedHooks = removeKindFixture.cleanedHooks
          ++ kindCleanIds "k" removeKindFixture) :=
  c3_removeStoryKind "k" removeKindFixture (by decide) (by decide)

/-! Kinds-invariance lemmas used for the kind-order stability claim. -/

theorem pushToManager_kinds (fc : Nat → StoryComparator)
    (cs : PValue → StoryComparator) (st : StoreState) :
    (pushToManager fc cs st).kinds = st.kinds := by
  rw [pushToManager]
  split <;> rfl

theorem finishConfiguring_kinds (fc : Nat → StoryComparator)
    (cs : PValue → StoryComparator) (st : StoreState) :
    (finishConfiguring fc cs st).kinds = st.kinds := by
  rw [finishConfiguring]
  have h1 : (pushToManager fc cs { st with configuring := false }).kinds
      = st.kinds := pushToManager_kinds fc cs _
  split
  · exact h1
  · exact h1

theorem setSelection_kinds (sel : Selection) (st : StoreState) :
    (setSelection sel st).kinds = st.kinds := by
  rw [setSelection]
  split
  · dsimp only
    split <;> rfl
  · rfl

theorem cleanHooks_kinds (id : String) (st : StoreState) :
    (cleanHooks id st).kinds = st.kinds := by
  rw [cleanHooks]
  split <;> rfl

theorem cleanHooks_foldl_kinds (ids : List String) (st : StoreState) :
    (ids.foldl (fun s i => cleanHooks i s) st).kinds = st.kinds := by
  induction ids generalizing st with
  | nil => rfl
  | cons i rest ih =>
      rw [List.foldl_cons, ih]
      exact cleanHooks_kinds i st

theorem cleanHooksForKind_kinds (kind : String) (st : StoreState) :
    (cleanHooksForKind kind st).kinds = st.kinds := by
  rw [cleanHooksForKind]
  exact cleanHooks_foldl_kinds _ st

theorem ensureKind_lookup_some (k1 k : String) (st : StoreState)
    (m : KindMetadata) (hm : recordLookup k st.kinds = some m) :
    recordLookup k (ensureKind k1 st).kinds = some m := by
  cases hlk : recordLookup k1 st.kinds with
  | some _ =>
      rw [ensureKind, hlk]
      exact hm
  | none =>
      rw [ensureKind, hlk]
      show recordLookup k (st.kinds ++ _) = some m
      rw [recordLookup_append, hm]

theorem ensureKind_lookup_none (k1 k : String) (st : StoreState)
    (m : KindMetadata) (hnone : recordLookup k st.kinds = none)
    (hm : recordLookup k (ensureKind k1 st).kinds = some m) :
    m.order = st.kinds.length := by
  cases hlk : recordLookup k1 st.kinds with
  | some _ =>
      rw [ensureKind, hlk] at hm
      rw [hnone] at hm
      exact Option.noConfusion hm
  | none =>
      rw [ensureKind, hlk] at hm
      have hm2 : recordLookup k (st.kinds
          ++ [(k1, { order := st.kinds.length, parameters := .nil,
                     decorators := [] })]) = some m := hm
      rw [recordLookup_append, hnone] at hm2
      by_cases hk : k1 = k
      · rw [recordLookup, if_pos hk] at hm2
        cases hm2
        rfl
      · rw [recordLookup, if_neg hk, recordLookup] at hm2
        exact Option.noConfusion hm2

/-- Any single operation preserves the order of an existing kind record
(kind records are never deleted, and the updates applied to them keep the
order field). -/
theorem applyOp_kind_order_preserved (fc : Nat → StoryComparator)
    (cs : PValue → StoryComparator) (op : Op) (st : StoreState)
    (k : String) (m : KindMetadata)
    (hm : recordLookup k st.kinds = some m) :
    ∃ m', recordLookup k (applyOp fc cs op st).kinds = some m'
      ∧ m'.order = m.order := by
  cases op with
  | startConfiguring => exact ⟨m, hm, rfl⟩
  | finishConfiguring =>
      rw [applyOp, finishConfiguring_kinds]
      exact ⟨m, hm, rfl⟩
  | addGlobalMetadata p d => exact ⟨m, hm, rfl⟩
  | clearGlobalDecorators => exact ⟨m, hm, rfl⟩
  | ensureKind k1 => exact ⟨m, ensureKind_lookup_some k1 k st m hm, rfl⟩
  | addKindMetadata k1 p d =>
      have h1 : recordLookup k (ensureKind k1 st).kinds = some m :=
        ensureKind_lookup_some k1 k st m hm
      show ∃ m', recordLookup k
        (recordUpdate k1 _ (ensureKind k1 st).kinds) = some m'
        ∧ m'.order = m.order
      by_cases hk : k1 = k
      · subst hk
        rw [recordLookup_recordUpdate_self, h1]
        exact ⟨_, rfl, rfl⟩
      · rw [recordLookup_recordUpdate_ne _ _ _ _ hk]
        exact ⟨m, h1, rfl⟩
  | addParameterEnhancer e =>
      rw [applyOp, addParameterEnhancer]
      split
      · exact ⟨m, hm, rfl⟩
      · exact ⟨m, hm, rfl⟩
  | addStory a u =>
      rw [applyOp, addStory]
      split
      · exact ⟨m, hm, rfl⟩
      · exact ⟨m, ensureKind_lookup_some a.kind k st m hm, rfl⟩
  | remove i u =>
      rw [applyOp, remove]
      split
      · exact ⟨m, hm, rfl⟩
      · cases hlk : recordLookup i st.stories <;> exact ⟨m, hm, rfl⟩
  | removeStoryKind k1 u =>
      rw [applyOp, removeStoryKind]
      split
      · exact ⟨m, hm, rfl⟩
      · cases hlk : recordLookup k1 st.kinds with
        | none => exact ⟨m, hm, rfl⟩
        | some m1 =>
            show ∃ m', recordLookup k (cleanHooksForKind k1
              { st with
                kinds :=
                  recordUpdate k1
                    (fun mm => { mm with parameters := PFields.nil, decorators := [] })
                    st.kinds }).kinds = some m' ∧ m'.order = m.order
            rw [cleanHooksForKind_kinds]
            show ∃ m', recordLookup k (recordUpdate k1 _ st.kinds)
              = some m' ∧ m'.order = m.order
            by_cases hk : k1 = k
            · subst hk
              rw [recordLookup_recordUpdate_self, hm]
              exact ⟨_, rfl, rfl⟩
            · rw [recordLookup_recordUpdate_ne _ _ _ _ hk]
              exact ⟨m, hm, rfl⟩
  | setGlobalArgs a => exact ⟨m, hm, rfl⟩
  | setStoryArgs i a =>
      rw [applyOp, setStoryArgs]
      cases hlk : recordLookup i st.stories <;> exact ⟨m, hm, rfl⟩
  | setSelection sel =>
      rw [applyOp, setSelection_kinds]
      exact ⟨m, hm, rfl⟩
  | incrementRevision => exact ⟨m, hm, rfl⟩

/-- Any single operation that brings a kind record into existence assigns
it the order equal to the number of kinds known at that moment. -/
theorem applyOp_kind_order_created (fc : Nat → StoryComparator)
    (cs : PValue → StoryComparator) (op : Op) (st : StoreState)
    (k : String) (m : KindMetadata)
    (hnone : recordLookup k st.kinds = none)
    (hm : recordLookup k (applyOp fc cs op st).kinds = some m) :
    m.order = st.kinds.length := by
  cases op with
  | startConfiguring =>
      have hm2 : recordLookup k st.kinds = some m := hm
      rw [hnone] at hm2
      exact Option.noConfusion hm2
  | finishConfiguring =>
      rw [applyOp, finishConfiguring_kinds] at hm
      rw [hnone] at hm
      exact Option.noConfusion hm
  | addGlobalMetadata p d =>
      have hm2 : recordLookup k st.kinds = some m := hm
      rw [hnone] at hm2
      exact Option.noConfusion hm2
  | clearGlobalDecorators =>
      have hm2 : recordLookup k st.kinds = some m := hm
      rw [hnone] at hm2
      exact Option.noConfusion hm2
  | ensureKind k1 => exact ensureKind_lookup_none k1 k st m hnone hm
  | addKindMetadata k1 p d =>
      have hm2 : recordLookup k
          (recordUpdate k1 _ (ensureKind k1 st).kinds) = some m := hm
      by_cases hk : k1 = k
      · subst hk
        rw [recordLookup_recordUpdate_self] at hm2
        cases h3 : recordLookup k1 (ensureKind k1 st).kinds with
        | none =>
            rw [h3] at hm2
            exact Option.noConfusion hm2
        | some m0 =>
            rw [h3] at hm2
            have h4 : m.order = m0.order := by
              cases hm2
              rfl
            rw [h4]
            exact ensureKind_lookup_none k1 k1 st m0 hnone h3
      · rw [recordLookup_recordUpdate_ne _ _ _ _ hk] at hm2
        exact ensureKind_lookup_none k1 k st m hnone hm2
  | addParameterEnhancer e =>
      rw [applyOp, addParameterEnhancer] at hm
      split at hm
      · have hm2 : recordLookup k st.kinds = some m := hm
        rw [hnone] at hm2
        exact Option.noConfusion hm2
      · have hm2 : recordLookup k st.kinds = some m := hm
        rw [hnone] at hm2
        exact Option.noConfusion hm2
  | addStory a u =>
      rw [applyOp, addStory] at hm
      split at hm
      · have hm2 : recordLookup k st.kinds = some m := hm
        rw [hnone] at hm2
        exact Option.noConfusion hm2
      · have hm2 : recordLookup k (ensureKind a.kind st).kinds = some m := hm
        exact ensureKind_lookup_none a.kind k st m hnone hm2
  | remove i u =>
      rw [applyOp, remove] at hm
      split at hm
      · have hm2 : recordLookup k st.kinds = some m := hm
        rw [hnone] at hm2
        exact Option.noConfusion hm2
      · cases hlk : recordLookup i st.stories <;>
        · rw [hlk] at hm
          have hm2 : recordLookup k st.kinds = some m := hm
          rw [hnone] at hm2
          exact Option.noConfusion hm2
  | removeStoryKind k1 u =>
      rw [applyOp, removeStoryKind] at hm
      split at hm
      · have hm2 : recordLookup k st.kinds = some m := hm
        rw [hnone] at hm2
        exact Option.noConfusion hm2
      · cases hlk : recordLookup k1 st.kinds with
        | none =>
            rw [hlk] at hm
            have hm2 : recordLookup k st.kinds = some m := hm
            rw [hnone] at hm2
            exact Option.noConfusion hm2
        | some m1 =>
            rw [hlk] at hm
            have hm2 : recordLookup k (cleanHooksForKind k1
              { st with
                kinds :=
                  recordUpdate k1
                    (fun mm => { mm with parameters := PFields.nil, decorators := [] })
                    st.kinds }).kinds = some m := hm
            rw [cleanHooksForKind_kinds] at hm2
            have hm3 : recordLookup k
                (recordUpdate k1 _ st.kinds) = some m := hm2
            by_cases hk : k1 = k
            · subst hk
              rw [hnone] at hlk
              exact Option.noConfusion hlk
            · rw [recordLookup_recordUpdate_ne _ _ _ _ hk] at hm3
              rw [hnone] at hm3
              exact Option.noConfusion hm3
  | setGlobalArgs a =>
      have hm2 : recordLookup k st.kinds = some m := hm
      rw [hnone] at hm2
      exact Option.noConfusion hm2
  | setStoryArgs i a =>
      rw [applyOp, setStoryArgs] at hm
      cases hlk : recordLookup i st.stories <;>
      · rw [hlk] at hm
        have hm2 : recordLookup k st.kinds = some m := hm
        rw [hnone] at hm2
        exact Option.noConfusion hm2
  | setSelection sel =>
      rw [applyOp, setSelection_kinds] at hm
      rw [hnone] at hm
      exact Option.noConfusion hm
  | incrementRevision =>
      have hm2 : recordLookup k st.kinds = some m := hm
      rw [hnone] at hm2
      exact Option.noConfusion hm2

/-- C7: the order of a group is assigned exactly once, on first
reference, to the number of groups known at that moment, and it never
changes afterwards: any single operation that creates the kind record
gives it order equal to the current kind count, and any sequence of
further operations — including removals that empty the group — keeps the
record present with the same order. -/
theorem c7_kind_order_stable (fc : Nat → StoryComparator)
    (cs : PValue → StoryComparator) :
    (∀ (op : Op) (st : StoreState) (k : String) (m : KindMetadata),
      recordLookup k st.kinds = none →
      recordLookup k (applyOp fc cs op st).kinds = some m →
      m.order = st.kinds.length) ∧
    (∀ (ops : List Op) (st : StoreState) (k : String) (m : KindMetadata),
      recordLookup k st.kinds = some m →
      ∃ m', recordLookup k (applyOps fc cs ops st).kinds = some m' ∧
        m'.order = m.order) := by
  constructor
  · exact fun op st k m => applyOp_kind_order_created fc cs op st k m
  · intro ops
    induction ops with
    | nil => exact fun st k m hm => ⟨m, hm, rfl⟩
    | cons op rest ih =>
        intro st k m hm
        rw [show applyOps fc cs (op :: rest) st
          = applyOps fc cs rest (applyOp fc cs op st) from rfl]
        obtain ⟨m1, h1, ho1⟩ :=
          applyOp_kind_order_preserved fc cs op st k m hm
        obtain ⟨m2, h2, ho2⟩ := ih (applyOp fc cs op st) k m1 h1
        exact ⟨m2, h2, ho2.trans ho1⟩

/-- C7 witness: the kind `k` is created with order equal to the kind
count at that moment (zero in the empty store), and keeps that order
across the group removal that empties it. -/
theorem c7_kind_order_stable_witness :
    (({ order := 0, parameters := .nil, decorators := [] }
        : KindMetadata).order = (initialStore true).kinds.length) ∧
    (∃ m', recordLookup "k" (applyOps fnEnv csEnv
        [ .removeStoryKind "k" false ] removeKindFixture).kinds = some m' ∧
      m'.order = ({ order := 0, parameters := .nil, decorators := [] }
        : KindMetadata).order) := by
  constructor
  · exact (c7_kind_order_stable fnEnv csEnv).1 (.ensureKind "k")
      (initialStore true) "k" _ (by decide) (by decide)
  · exact (c7_kind_order_stable fnEnv csEnv).2 [ .removeStoryKind "k" false ]
      removeKindFixture "k" _ (by decide)

/-- The fields of the store other than the kind map are untouched by
`ensureKind`. -/
theorem ensureKind_fields (k : String) (st : StoreState) :
    (ensureKind k st).globalParameters = st.globalParameters ∧
    (ensureKind k st).parameterEnhancers = st.parameterEnhancers ∧
    (ensureKind k st).configuring = st.configuring ∧
    (ensureKind k st).stories = st.stories := by
  cases hlk : recordLookup k st.kinds <;> rw [ensureKind, hlk] <;>
    exact ⟨rfl, rfl, rfl, rfl⟩

/-- Ensuring one kind does not change the lookup of another. -/
theorem ensureKind_lookup_ne (k1 k : String) (st : StoreState)
    (hk : k1 ≠ k) :
    recordLookup k (ensureKind k1 st).kinds = recordLookup k st.kinds := by
  cases hlk : recordLookup k1 st.kinds with
  | some m => rw [ensureKind, hlk]
  | none =>
      rw [ensureKind, hlk]
      show recordLookup k (st.kinds ++ _) = _
      rw [recordLookup_append]
      cases hlk2 : recordLookup k st.kinds with
      | some m => rfl
      | none => simp [recordLookup, fun hc : k1 = k => hk hc]

/-- Ensuring an unknown kind creates its record with the current kind
count as order and empty parameters and decorators. -/
theorem ensureKind_lookup_self_none (k : String) (st : StoreState)
    (hlk : recordLookup k st.kinds = none) :
    recordLookup k (ensureKind k st).kinds
      = some { order := st.kinds.length, parameters := .nil,
               decorators := [] } := by
  rw [ensureKind, hlk]
  show recordLookup k (st.kinds ++ _) = _
  rw [recordLookup_append, hlk]
  rw [recordLookup, if_pos rfl]

/-- Effect of `addKindMetadata` on the accumulated parameters of any
kind: the named kind deep-merges the new parameters, others are
unchanged. -/
theorem addKindMetadata_kindParams (k1 : String) (p : PFields)
    (d : List Nat) (st : StoreState) (k : String) :
    kindParams (addKindMetadata k1 p d st) k
      = if k1 = k then combineParameters [kindParams st k, p]
        else kindParams st k := by
  by_cases hk : k1 = k
  · subst hk
    rw [if_pos rfl, kindParams]
    show ((recordLookup k1 (recordUpdate k1 _
      (ensureKind k1 st).kinds)).map (fun m => m.parameters)).getD .nil = _
    rw [recordLookup_recordUpdate_self]
    cases hlk : recordLookup k1 st.kinds with
    | some m =>
        rw [ensureKind_lookup_some k1 k1 st m hlk]
        simp [kindParams, hlk]
    | none =>
        rw [ensureKind_lookup_self_none k1 st hlk]
        simp [kindParams, hlk]
  · rw [if_neg hk, kindParams, kindParams]
    show ((recordLookup k (recordUpdate k1 _
      (ensureKind k1 st).kinds)).map (fun m => m.parameters)).getD .nil = _
    rw [recordLookup_recordUpdate_ne _ _ _ _ hk,
      ensureKind_lookup_ne k1 k st hk]

/-- Effect of a sequence of metadata additions: the global parameters are
the fold of the deep merge over the global payloads, the accumulated
parameters of each kind are the fold over that kind's payloads, and the
enhancer pipeline and the configuring flag are untouched. -/
theorem applyOps_meta (fc : Nat → StoryComparator)
    (cs : PValue → StoryComparator) (ops : List Op) (st : StoreState)
    (hmeta : ∀ op ∈ ops, Op.isMetadataAdd op = true) :
    (applyOps fc cs ops st).globalParameters
      = (globalAdds ops).foldl (fun acc p => combineParameters [acc, p])
          st.globalParameters ∧
    (∀ k, kindParams (applyOps fc cs ops st) k
      = (kindAdds k ops).foldl (fun acc p => combineParameters [acc, p])
          (kindParams st k)) ∧
    (applyOps fc cs ops st).parameterEnhancers = st.parameterEnhancers ∧
    (applyOps fc cs ops st).configuring = st.configuring := by
  induction ops generalizing st with
  | nil => exact ⟨rfl, fun k => rfl, rfl, rfl⟩
  | cons op rest ih =>
      have hop := hmeta op (List.mem_cons_self op rest)
      have hrest : ∀ o ∈ rest, Op.isMetadataAdd o = true :=
        fun o ho => hmeta o (List.mem_cons_of_mem op ho)
      have hstep : applyOps fc cs (op :: rest) st
          = applyOps fc cs rest (applyOp fc cs op st) := rfl
      cases op with
      | addGlobalMetadata p d =>
          obtain ⟨ihg, ihk, ihe, ihc⟩ := ih (applyOp fc cs
            (.addGlobalMetadata p d) st) hrest
          rw [hstep]
          refine ⟨?_, ?_, ?_, ?_⟩
          · rw [ihg]
            show (globalAdds (Op.addGlobalMetadata p d :: rest)).foldl _ _ = _
            rw [show globalAdds (Op.addGlobalMetadata p d :: rest)
              = p :: globalAdds rest from rfl, List.foldl_cons]
          · intro k
            rw [ihk k]
            exact rfl
          · rw [ihe]
            exact rfl
          · rw [ihc]
            exact rfl
      | addKindMetadata k1 p d =>
          obtain ⟨ihg, ihk, ihe, ihc⟩ := ih (applyOp fc cs
            (.addKindMetadata k1 p d) st) hrest
          rw [hstep]
          refine ⟨?_, ?_, ?_, ?_⟩
          · rw [ihg]
            show _ = (globalAdds (Op.addKindMetadata k1 p d :: rest)).foldl _ _
            rw [show globalAdds (Op.addKindMetadata k1 p d :: rest)
              = globalAdds rest from rfl]
            have hfields := ensureKind_fields k1 st
            show (globalAdds rest).foldl _
              (addKindMetadata k1 p d st).globalParameters = _
            rw [show (addKindMetadata k1 p d st).globalParameters
              = (ensureKind k1 st).globalParameters from rfl, hfields.1]
          · intro k
            rw [ihk k]
            rw [show applyOp fc cs (Op.addKindMetadata k1 p d) st
              = addKindMetadata k1 p d st from rfl]
            rw [addKindMetadata_kindParams]
            by_cases hk : k1 = k
            · subst hk
              rw [if_pos rfl]
              rw [show kindAdds k1 (Op.addKindMetadata k1 p d :: rest)
                = p :: kindAdds k1 rest by simp [kindAdds], List.foldl_cons]
            · rw [if_neg hk]
              rw [show kindAdds k (Op.addKindMetadata k1 p d :: rest)
                = kindAdds k rest by simp [kindAdds, hk]]
          · rw [ihe]
            exact (ensureKind_fields k1 st).2.1
          · rw [ihc]
            exact (ensureKind_fields k1 st).2.2.1
      | startConfiguring => simp [Op.isMetadataAdd] at hop
      | finishConfiguring => simp [Op.isMetadataAdd] at hop
      | clearGlobalDecorators => simp [Op.isMetadataAdd] at hop
      | ensureKind k1 => simp [Op.isMetadataAdd] at hop
      | addParameterEnhancer e => simp [Op.isMetadataAdd] at hop
      | addStory a u => simp [Op.isMetadataAdd] at hop
      | remove i u => simp [Op.isMetadataAdd] at hop
      | removeStoryKind k1 u => simp [Op.isMetadataAdd] at hop
      | setGlobalArgs a => simp [Op.isMetadataAdd] at hop
      | setStoryArgs i a => simp [Op.isMetadataAdd] at hop
      | setSelection sel => simp [Op.isMetadataAdd] at hop
      | incrementRevision => simp [Op.isMetadataAdd] at hop

/-- The parameters stored by a successful `addStory`: the deep merge of
current global parameters, accumulated parameters of the story kind, and
the per-story parameters, run through the registered enhancer pipeline. -/
theorem addStory_params (st : StoreState) (a : AddStoryArgs)
    (hconf : st.configuring = true) :
    ∃ st1, addStory a false st = .ok st1 ∧
      (recordLookup a.id st1.stories).map (fun i => i.parameters)
        = some (resolveParameters st.parameterEnhancers a.id a.kind a.name
            (combineParameters
              [st.globalParameters, kindParams st a.kind, a.parameters])) := by
  have hmeta : ((recordLookup a.kind (ensureKind a.kind st).kinds).getD
      { order := 0, parameters := .nil, decorators := [] }).parameters
      = kindParams st a.kind := by
    cases hlk : recordLookup a.kind st.kinds with
    | some m =>
        rw [ensureKind_lookup_some a.kind a.kind st m hlk]
        simp [kindParams, hlk]
    | none =>
        rw [ensureKind_lookup_self_none a.kind st hlk]
        simp [kindParams, hlk]
  rw [addStory, if_neg (by simp [hconf])]
  refine ⟨_, rfl, ?_⟩
  rw [recordLookup_recordSet_self]
  show some (resolveParameters (ensureKind a.kind st).parameterEnhancers
      a.id a.kind a.name
      (combineParameters
        [(ensureKind a.kind st).globalParameters,
         ((recordLookup a.kind (ensureKind a.kind st).kinds).getD
           { order := 0, parameters := .nil, decorators := [] }).parameters,
         a.parameters])) = _
  rw [hmeta, (ensureKind_fields a.kind st).1, (ensureKind_fields a.kind st).2.1]

/-- C1: after any sequence of metadata additions followed by `addStory`,
the registered story resolves its parameters to the deep merge of the
accumulated global parameters, the accumulated parameters of its kind and
the per-story parameters (in that override order), then the enhancer
pipeline applied in registration order by shallow merge; the result
depends only on the order-preserving projections of the sequence (the
global payloads, and each kind's payloads), hence is unchanged under any
interleaving of the global and kind metadata additions that precedes the
`addStory` call. -/
theorem c1_resolved_parameters (fc : Nat → StoryComparator)
    (cs : PValue → StoryComparator) (E : List ParameterEnhancer)
    (ops ops2 : List Op) (a : AddStoryArgs)
    (hmeta : ∀ op ∈ ops, Op.isMetadataAdd op = true)
    (hmeta2 : ∀ op ∈ ops2, Op.isMetadataAdd op = true)
    (hg : globalAdds ops = globalAdds ops2)
    (hk : ∀ k, kindAdds k ops = kindAdds k ops2) :
    ∃ st1, addStory a false (applyOps fc cs ops (initialWithEnhancers E))
        = .ok st1 ∧
      (recordLookup a.id st1.stories).map (fun i => i.parameters)
        = some (resolveParameters E a.id a.kind a.name
            (combineParameters
              [(globalAdds ops).foldl
                 (fun acc p => combineParameters [acc, p]) .nil,
               (kindAdds a.kind ops).foldl
                 (fun acc p => combineParameters [acc, p]) .nil,
               a.parameters])) ∧
      ∃ st2, addStory a false (applyOps fc cs ops2 (initialWithEnhancers E))
          = .ok st2 ∧
        (recordLookup a.id st2.stories).map (fun i => i.parameters)
          = (recordLookup a.id st1.stories).map (fun i => i.parameters) := by
  obtain ⟨hg1, hk1, he1, hc1⟩ :=
    applyOps_meta fc cs ops (initialWithEnhancers E) hmeta
  obtain ⟨hg2, hk2, he2, hc2⟩ :=
    applyOps_meta fc cs ops2 (initialWithEnhancers E) hmeta2
  obtain ⟨st1, hok1, hp1⟩ :=
    addStory_params (applyOps fc cs ops (initialWithEnhancers E)) a
      (by rw [hc1]; rfl)
  obtain ⟨st2, hok2, hp2⟩ :=
    addStory_params (applyOps fc cs ops2 (initialWithEnhancers E)) a
      (by rw [hc2]; rfl)
  rw [hg1, hk1 a.kind, he1] at hp1
  rw [hg2, hk2 a.kind, he2] at hp2
  refine ⟨st1, hok1, ?_, st2, hok2, ?_⟩
  · rw [hp1]
    exact rfl
  · rw [hp2, hp1, hg, hk a.kind]

/-- C1 witness: two interleavings of the same global and kind metadata
payloads, followed by the same `addStory`, resolve the story parameters
to the same deep-merged, enhancer-extended mapping. -/
theorem c1_resolved_parameters_witness :
    ∃ st1, addStory kindKStoryArgs false
        (applyOps fnEnv csEnv metaOpsW
          (initialWithEnhancers [witnessEnhancer])) = .ok st1 ∧
      (recordLookup kindKStoryArgs.id st1.stories).map
          (fun i => i.parameters)
        = some (resolveParameters [witnessEnhancer] kindKStoryArgs.id
            kindKStoryArgs.kind kindKStoryArgs.name
            (combineParameters
              [(globalAdds metaOpsW).foldl
                 (fun acc p => combineParameters [acc, p]) .nil,
               (kindAdds kindKStoryArgs.kind metaOpsW).foldl
                 (fun acc p => combineParameters [acc, p]) .nil,
               kindKStoryArgs.parameters])) ∧
      ∃ st2, addStory kindKStoryArgs false
          (applyOps fnEnv csEnv metaOpsW2
            (initialWithEnhancers [witnessEnhancer])) = .ok st2 ∧
        (recordLookup kindKStoryArgs.id st2.stories).map
            (fun i => i.parameters)
          = (recordLookup kindKStoryArgs.id st1.stories).map
              (fun i => i.parameters) :=
  c1_resolved_parameters fnEnv csEnv [witnessEnhancer] metaOpsW metaOpsW2
    kindKStoryArgs (by decide) (by decide) (by decide)
    (fun k => by by_cases h : "k" = k <;> simp [kindAdds, metaOpsW, metaOpsW2, h])

/-- When the sort-selection scan finds no truthy `storySort`, the ordering
pass is the stable sort by kind order (on an empty story map both sides
are empty). -/
theorem sortedEntries_inactive (fc : Nat → StoryComparator)
    (cs : PValue → StoryComparator) (st : StoreState)
    (h : storySortActive st = false) :
    sortedEntries fc cs st
      = stableSort (kindOrderComparator st) st.stories := by
  rw [sortedEntries]
  split
  · cases hssp : storySortParamOf st with
    | none => rfl
    | some v =>
        have ht : truthy v = false := by
          rw [storySortActive, hssp] at h
          simpa [truthyOpt] using h
        show (if truthy v = true
            then stableSort (storySortComparator fc cs v) st.stories
            else stableSort (kindOrderComparator st) st.stories)
          = stableSort (kindOrderComparator st) st.stories
        rw [ht]
        simp
  · rename_i hlen
    have hnil : st.stories = [] := by
      cases hs : st.stories with
      | nil => rfl
      | cons a l =>
          rw [hs] at hlen
          simp at hlen
    rw [hnil]
    rfl

/-- When the sort-selection scan finds a truthy `storySort`, the ordering
pass is the stable sort by the custom comparator it denotes. -/
theorem sortedEntries_active (fc : Nat → StoryComparator)
    (cs : PValue → StoryComparator) (st : StoreState) (v : PValue)
    (hv : storySortParamOf st = some v) (ht : truthy v = true) :
    sortedEntries fc cs st
      = stableSort (storySortComparator fc cs v) st.stories := by
  have hnon : st.stories.length > 0 := by
    cases hs : st.stories with
    | nil =>
        rw [storySortParamOf, hs] at hv
        simp at hv
    | cons a l => simp [hs]
  rw [sortedEntries, if_pos hnon, hv]
  show (if truthy v = true
      then stableSort (storySortComparator fc cs v) st.stories
      else stableSort (kindOrderComparator st) st.stories)
    = stableSort (storySortComparator fc cs v) st.stories
  rw [ht]
  simp

/-- C2 counterexample: the second fixture story declares a truthy function
`storySort`, yet `extract` does not apply the custom sort — the
sort-selection scan inspects only the first story with truthy
`parameters.options` (here the first story, which has no `storySort`), so
the output keeps registration order while the declared custom comparator
would reverse it. -/
theorem c2_counterexample :
    (sortFixture.stories.any (fun kv => declaresStorySort kv.2)) = true ∧
    (extract fnEnv csEnv sortFixture none).map (fun kv => kv.1)
      = ["k--a", "k--bb"] ∧
    ((stableSort (fnEnv 0) sortFixture.stories).filter
        (fun kv => includeStory kv.2 none)).map (fun kv => kv.1)
      = ["k--bb", "k--a"] := by
  refine ⟨by decide, by decide, by decide⟩

/-- C2 (amended): `extract` applies the custom stable sort exactly when
the sort-selection scan — which inspects only the first registered story
whose `parameters.options` is truthy — finds a truthy `storySort` there
(using the function itself, or its compilation by the external sort-spec
compiler); otherwise the output is ordered by nondecreasing group order
and preserves the original discovery order among the stories of each
kind. -/
theorem c2_extract_ordering (fc : Nat → StoryComparator)
    (cs : PValue → StoryComparator) (st : StoreState)
    (options : Option StoryOptions) :
    (∀ v, storySortParamOf st = some v → truthy v = true →
      extract fc cs st options
        = ((stableSort (storySortComparator fc cs v) st.stories).filter
            (fun kv => includeStory kv.2 options)).map
            (fun kv => (kv.1, toExtracted kv.2))) ∧
    (storySortActive st = false →
      List.Pairwise (fun x y =>
          kindOrder st x.2.kind ≤ kindOrder st y.2.kind)
        (extract fc cs st options) ∧
      (∀ k : String,
        (extract fc cs st options).filter (fun kv => kv.2.kind = k)
          = (st.stories.filter
              (fun kv => includeStory kv.2 options
                && decide (kv.2.kind = k))).map
              (fun kv => (kv.1, toExtracted kv.2)))) := by
  constructor
  · intro v hv htruthy
    rw [extract, sortedEntries_active fc cs st v hv htruthy]
  · intro hinactive
    have hsorted := sortedEntries_inactive fc cs st hinactive
    constructor
    · rw [extract, hsorted]
      have hpw := stableSort_pairwise
        (fun kv : String × StoreItem => kindOrder st kv.2.kind) st.stories
      apply List.pairwise_map.mpr
      exact (hpw.filter _).imp (fun h => h)
    · intro k
      have h1 : (extract fc cs st options).filter
          (fun kv => kv.2.kind = k)
          = ((stableSort (kindOrderComparator st) st.stories).filter
              (fun kv => decide (kv.2.kind = k)
                && includeStory kv.2 options)).map
              (fun kv => (kv.1, toExtracted kv.2)) := by
        rw [extract, hsorted, List.filter_map, List.filter_filter]
        congr 1
      have h2 : (stableSort (kindOrderComparator st) st.stories).filter
          (fun kv => decide (kv.2.kind = k) && includeStory kv.2 options)
          = st.stories.filter
            (fun kv => decide (kv.2.kind = k)
              && includeStory kv.2 options) := by
        apply stableSort_filter
        intro x y hx hy
        have hxk : x.2.kind = k :=
          of_decide_eq_true ((Bool.and_eq_true _ _).mp hx).1
        have hyk : y.2.kind = k :=
          of_decide_eq_true ((Bool.and_eq_true _ _).mp hy).1
        rw [kindOrderComparator, hxk, hyk]
        omega
      rw [h1, h2]
      congr 1
      apply List.filter_congr
      intro kv _
      exact Bool.and_comm _ _

/-- C2 witness: in the fixture with no `storySort` anywhere, the extract
output is ordered by kind order and keeps discovery order inside each
kind. -/
theorem c2_extract_ordering_witness :
    storySortActive removeKindFixture = false ∧
    (List.Pairwise (fun x y =>
        kindOrder removeKindFixture x.2.kind
          ≤ kindOrder removeKindFixture y.2.kind)
      (extract fnEnv csEnv removeKindFixture none) ∧
     (∀ k : String,
       (extract fnEnv csEnv removeKindFixture none).filter
           (fun kv => kv.2.kind = k)
         = (removeKindFixture.stories.filter
             (fun kv => includeStory kv.2 none
               && decide (kv.2.kind = k))).map
             (fun kv => (kv.1, toExtracted kv.2)))) :=
  ⟨by decide,
    (c2_extract_ordering fnEnv csEnv removeKindFixture none).2 (by decide)⟩
